import Mathlib

/-!
Shallow embedding of the Block Data Manager (BDM) of the conflux-rust
repository, `src/core/src/block_data_manager/mod.rs`, together with the
value types and durable-store operations it uses.  Block hashes (H256),
heights and epoch numbers are modelled as `Nat`; each in-memory map and
each durable-store family is a function `Nat → Option V`.  The companion
modules `block_data_types.rs`, `db_manager.rs`, `db_gc_manager.rs` are not
part of the sources; the entities and store operations they provide are
modelled from the specification (spec sections 3, 4.A, 4.G) and are marked
`Modelled from the spec:` in their doc comments.
-/

namespace BDM

/-- Block hashes (H256 in the source) are abstract identifiers. -/
abbrev Hash := Nat

/-- A key-value family: both the in-memory maps (`HashMap`) and the durable
store families of `db_manager.rs` are modelled as partial maps over `Nat`
keys (block hashes or heights). -/
abbrev KV (V : Type) := Nat → Option V

/-- Map update: `HashMap::insert` / durable `put`. -/
def KV.insert {V : Type} (m : KV V) (k : Nat) (v : V) : KV V :=
  fun x => if x = k then some v else m x

/-- Map removal: `HashMap::remove` / durable `delete`. -/
def KV.remove {V : Type} (m : KV V) (k : Nat) : KV V :=
  fun x => if x = k then none else m x

/-- The empty map. -/
def KV.empty {V : Type} : KV V := fun _ => none

/-- `pub const NULLU64: u64 = !0;` -/
def NULLU64 : Nat := 2 ^ 64 - 1

/-- A signed transaction, reduced to its hash (the only field the BDM
inspects). -/
structure SignedTransaction where
  hash : Hash
deriving DecidableEq

/-- Header fields the BDM reads.  `hash` stands for the keccak hash of the
header, which is opaque to the BDM. -/
structure BlockHeader where
  hash : Hash
  parent_hash : Hash
  height : Nat
  deferred_receipts_root : Hash
  deferred_logs_bloom_hash : Hash
deriving DecidableEq

/-- A block: header plus ordered transactions. -/
structure Block where
  block_header : BlockHeader
  transactions : List SignedTransaction
deriving DecidableEq

/-- `Block::hash()` returns the header hash. -/
def Block.hash (b : Block) : Hash := b.block_header.hash

/-- `TransactionIndex { block_hash, index }`. -/
structure TransactionIndex where
  block_hash : Hash
  index : Nat
deriving DecidableEq

/-- Modelled from the spec: `BlockStatus` of `block_data_types.rs`
(not in the sources); spec section 3:
`status ∈ {Valid, Invalid, Pending, PartialInvalid}`. -/
inductive BlockStatus
  | Valid
  | Invalid
  | Pending
  | PartialInvalid
deriving DecidableEq

/-- Modelled from the spec: `LocalBlockInfo` of `block_data_types.rs`
(not in the sources); spec section 3:
`{status, sequence_number, instance_id}`.  `LocalBlockInfo::new` takes the
fields in this order. -/
structure LocalBlockInfo where
  status : BlockStatus
  sequence_number : Nat
  instance_id : Nat
deriving DecidableEq

/-- `LocalBlockInfo::get_status`. -/
def LocalBlockInfo.get_status (i : LocalBlockInfo) : BlockStatus := i.status

/-- Modelled from the spec: `BlockExecutionResult` of `block_data_types.rs`
(not in the sources); receipts and bloom are opaque to the claims, kept as
abstract identifiers. -/
structure BlockExecutionResult where
  block_receipts : Nat
  bloom : Nat
deriving DecidableEq

/-- Modelled from the spec: `BlockExecutionResultWithEpoch(pivot, result)`
of `block_data_types.rs` (not in the sources); spec section 6: the
block-execution-result family value encodes `(pivot_hash, receipts, bloom)`. -/
structure BlockExecutionResultWithEpoch where
  epoch : Hash
  result : BlockExecutionResult
deriving DecidableEq

/-- Modelled from the spec: `BlockReceiptsInfo` of `block_data_types.rs`
(not in the sources); spec section 3: a mapping from assumed-pivot hash to
receipts, with a designated current-pivot marker (`none` when no pivot has
been designated yet). -/
structure BlockReceiptsInfo where
  entries : KV BlockExecutionResult
  pivot : Option Hash

/-- Modelled from the spec: the default (empty) `BlockReceiptsInfo`. -/
def BlockReceiptsInfo.default : BlockReceiptsInfo :=
  { entries := KV.empty, pivot := none }

/-- Modelled from the spec: `get_receipts_at_epoch` returns the receipts
recorded under `epoch` together with whether `epoch` is the current-pivot
marker. -/
def BlockReceiptsInfo.get_receipts_at_epoch (ri : BlockReceiptsInfo)
    (epoch : Hash) : Option (BlockExecutionResult × Bool) :=
  (ri.entries epoch).map
    (fun r => (r, if ri.pivot = some epoch then true else false))

/-- Modelled from the spec: `set_pivot_hash` designates `epoch` as the
current-pivot marker. -/
def BlockReceiptsInfo.set_pivot_hash (ri : BlockReceiptsInfo)
    (epoch : Hash) : BlockReceiptsInfo :=
  { ri with pivot := some epoch }

/-- Modelled from the spec: `insert_receipts_at_epoch` records receipts
under the given pivot hash. -/
def BlockReceiptsInfo.insert_receipts_at_epoch (ri : BlockReceiptsInfo)
    (epoch : Hash) (r : BlockExecutionResult) : BlockReceiptsInfo :=
  { ri with entries := ri.entries.insert epoch r }

/-- `EpochExecutionContext { start_block_number }` (spec section 3). -/
structure EpochExecutionContext where
  start_block_number : Nat
deriving DecidableEq

/-- `EpochExecutionCommitment` (spec section 3); the state root is opaque. -/
structure EpochExecutionCommitment where
  state_root_with_aux_info : Nat
  receipts_root : Hash
  logs_bloom_hash : Hash
deriving DecidableEq

/-- Block reward results are opaque to the claims. -/
abbrev BlockRewardResult := Nat

/-- Block execution traces are opaque to the claims. -/
abbrev BlockExecTraces := Nat

/-- Blamed-header verified roots are opaque to the claims. -/
abbrev BlamedHeaderVerifiedRoots := Nat

/-- The fixed-capacity invalid-block set of `mod.rs` lines 59-92.  The
`HashSet` is modelled as a duplicate-free list; `iter().next()` (an
arbitrary element of the set) is modelled as the head of the list. -/
structure InvalidBlockSet where
  capacity : Nat
  invalid_block_hashes : List Hash
deriving DecidableEq

/-- `InvalidBlockSet::new`. -/
def InvalidBlockSet.new (capacity : Nat) : InvalidBlockSet :=
  { capacity := capacity, invalid_block_hashes := [] }

/-- `InvalidBlockSet::insert`: no-op when present; plain insert while below
capacity; otherwise evict `iter().next()` (if any) and insert. -/
def InvalidBlockSet.insert (s : InvalidBlockSet) (value : Hash) :
    InvalidBlockSet :=
  if s.invalid_block_hashes.contains value then s
  else if s.invalid_block_hashes.length < s.capacity then
    { s with invalid_block_hashes := value :: s.invalid_block_hashes }
  else
    match s.invalid_block_hashes.head? with
    | some evicted =>
        { s with invalid_block_hashes :=
            value :: s.invalid_block_hashes.erase evicted }
    | none => { s with invalid_block_hashes := [value] }

/-- `InvalidBlockSet::contains`. -/
def InvalidBlockSet.contains (s : InvalidBlockSet) (value : Hash) : Bool :=
  s.invalid_block_hashes.contains value

/-- The number of stored hashes. -/
def InvalidBlockSet.size (s : InvalidBlockSet) : Nat :=
  s.invalid_block_hashes.length

/-- Modelled from the spec: the durable store of `db_manager.rs` (not in
the sources); spec section 4.A (typed `get`/`put`/`delete` over a KV
store: `get` returns the last value `put` under the key) and section 6
(the list of families). -/
structure DB where
  block_headers : KV BlockHeader
  block_bodies : KV (List SignedTransaction)
  block_exec_results : KV BlockExecutionResultWithEpoch
  block_rewards : KV BlockRewardResult
  block_traces : KV BlockExecTraces
  transaction_indices : KV TransactionIndex
  local_block_info : KV LocalBlockInfo
  blamed_roots : KV BlamedHeaderVerifiedRoots
  exec_contexts : KV EpochExecutionContext
  exec_commitments : KV EpochExecutionCommitment
  executed_epoch_sets : KV (List Hash)
  skipped_epoch_sets : KV (List Hash)
  instance_id : Option Nat
  checkpoint_hashes : Option (Hash × Hash)

/-- The empty durable store. -/
def DB.empty : DB :=
  { block_headers := KV.empty
    block_bodies := KV.empty
    block_exec_results := KV.empty
    block_rewards := KV.empty
    block_traces := KV.empty
    transaction_indices := KV.empty
    local_block_info := KV.empty
    blamed_roots := KV.empty
    exec_contexts := KV.empty
    exec_commitments := KV.empty
    executed_epoch_sets := KV.empty
    skipped_epoch_sets := KV.empty
    instance_id := none
    checkpoint_hashes := none }

/-- `DataManagerConfiguration` (`mod.rs` lines 1471-1481), restricted to
the fields the modelled operations read. -/
structure DataManagerConfiguration where
  persist_tx_index : Bool
  additional_maintained_block_body_epoch_count : Option Nat
  additional_maintained_execution_result_epoch_count : Option Nat
  additional_maintained_reward_epoch_count : Option Nat
  additional_maintained_trace_epoch_count : Option Nat
  additional_maintained_transaction_index_epoch_count : Option Nat
  checkpoint_gc_time_in_epoch_count : Nat

/-- The state of a `BlockDataManager` (`mod.rs` lines 94-164): the
in-memory maps, the invalid-block set, the era hashes, the instance id,
the configuration, the true genesis block, and the durable store it owns.
The cache manager only records usage order and is not modelled; compact
blocks are memory-only and unused by the claims. -/
structure BDMState where
  block_headers : KV BlockHeader
  blocks : KV Block
  block_receipts : KV BlockReceiptsInfo
  block_rewards : KV BlockRewardResult
  block_traces : KV BlockExecTraces
  transaction_indices : KV TransactionIndex
  local_block_info : KV LocalBlockInfo
  blamed_header_verified_roots : KV BlamedHeaderVerifiedRoots
  epoch_execution_commitments : KV EpochExecutionCommitment
  epoch_execution_contexts : KV EpochExecutionContext
  invalid_block_set : InvalidBlockSet
  cur_consensus_era_genesis_hash : Hash
  cur_consensus_era_stable_hash : Hash
  instance_id : Nat
  config : DataManagerConfiguration
  true_genesis : Block
  db : DB

/-- The generic two-tier write path (`BlockDataManager::insert`, `mod.rs`
lines 805-819): persist first when requested, then update the in-memory
map.  Returns the new `(in-memory map, durable family)` pair; the
`insert_f` closure of each family writes the value into its durable
family, modelled here as a map update. -/
def insertGeneric {V : Type} (in_mem : KV V) (db_map : KV V) (key : Nat)
    (value : V) (persistent : Bool) : KV V × KV V :=
  (in_mem.insert key value,
   if persistent then db_map.insert key value else db_map)

/-- The generic two-tier read path (`BlockDataManager::get`, `mod.rs`
lines 821-841): serve from memory; on miss load via `load_f` and, when a
cache id was supplied (`populate = true`), insert the loaded value into
the in-memory map.  Returns the result and the new in-memory map. -/
def getGeneric {V : Type} (in_mem : KV V) (load_f : Nat → Option V)
    (key : Nat) (populate : Bool) : Option V × KV V :=
  match in_mem key with
  | some value => (some value, in_mem)
  | none =>
    match load_f key with
    | some value =>
        (some value, if populate then in_mem.insert key value else in_mem)
    | none => (none, in_mem)

/-- `insert_block_header` (`mod.rs` lines 499-512): the uniform write path
on the header family. -/
def insert_block_header (s : BDMState) (hash : Hash) (header : BlockHeader)
    (persistent : Bool) : BDMState :=
  let p := insertGeneric s.block_headers s.db.block_headers hash header
    persistent
  { s with block_headers := p.1,
           db := { s.db with block_headers := p.2 } }

/-- `block_header_by_hash` (`mod.rs` lines 488-497): the uniform read path
on the header family (a cache id is always supplied). -/
def block_header_by_hash (s : BDMState) (hash : Hash) :
    Option BlockHeader × BDMState :=
  let p := getGeneric s.block_headers (fun k => s.db.block_headers k) hash
    true
  (p.1, { s with block_headers := p.2 })

/-- `remove_block_header` (`mod.rs` lines 515-520). -/
def remove_block_header (s : BDMState) (hash : Hash) (remove_db : Bool) :
    BDMState :=
  { s with
    db := if remove_db then
        { s.db with block_headers := s.db.block_headers.remove hash }
      else s.db,
    block_headers := s.block_headers.remove hash }

/-- `insert_block_body` (`mod.rs` lines 382-390): persist the body when
requested, then update the in-memory blocks map. -/
def insert_block_body (s : BDMState) (hash : Hash) (block : Block)
    (persistent : Bool) : BDMState :=
  let db1 := if persistent then
      { s.db with block_bodies :=
          s.db.block_bodies.insert hash block.transactions }
    else s.db
  { s with db := db1, blocks := s.blocks.insert hash block }

/-- `block_from_db` of `db_manager.rs`, modelled from the spec: a block is
reassembled from the durable header and body families. -/
def DB.block_from_db (db : DB) (hash : Hash) : Option Block :=
  match db.block_headers hash with
  | none => none
  | some header =>
    match db.block_bodies hash with
    | none => none
    | some txs => some { block_header := header, transactions := txs }

/-- `block_by_hash` (`mod.rs` lines 401-414): the uniform read path on the
blocks map, populating the cache only when `update_cache` is set. -/
def block_by_hash (s : BDMState) (hash : Hash) (update_cache : Bool) :
    Option Block × BDMState :=
  let p := getGeneric s.blocks (fun k => s.db.block_from_db k) hash
    update_cache
  (p.1, { s with blocks := p.2 })

/-- `insert_block` (`mod.rs` lines 432-440): insert the header, then the
body, under the block's hash. -/
def insert_block (s : BDMState) (block : Block) (persistent : Bool) :
    BDMState :=
  let s1 := insert_block_header s block.hash block.block_header persistent
  insert_block_body s1 block.hash block persistent

/-- `insert_block_traces` (`mod.rs` lines 467-478): the uniform write path
on the traces family. -/
def insert_block_traces (s : BDMState) (hash : Hash)
    (block_traces : BlockExecTraces) (persistent : Bool) : BDMState :=
  let p := insertGeneric s.block_traces s.db.block_traces hash block_traces
    persistent
  { s with block_traces := p.1,
           db := { s.db with block_traces := p.2 } }

/-- `block_traces_by_hash` (`mod.rs` lines 458-465). -/
def block_traces_by_hash (s : BDMState) (hash : Hash) :
    Option BlockExecTraces × BDMState :=
  let p := getGeneric s.block_traces (fun k => s.db.block_traces k) hash
    true
  (p.1, { s with block_traces := p.2 })

/-- `remove_block_traces` (`mod.rs` lines 481-486), embedded exactly as
written: the body removes the block-header family from the durable store
and the in-memory header map. -/
def remove_block_traces (s : BDMState) (hash : Hash) (remove_db : Bool) :
    BDMState :=
  { s with
    db := if remove_db then
        { s.db with block_headers := s.db.block_headers.remove hash }
      else s.db,
    block_headers := s.block_headers.remove hash }

/-- `insert_transaction_index` (`mod.rs` lines 718-744).  When
`persist_tx_index` is set, the durable family is always written but the
in-memory map is only updated through `and_modify`, i.e. only when an
entry for the hash already exists; otherwise only the in-memory map is
written. -/
def insert_transaction_index (s : BDMState) (hash : Hash)
    (tx_index : TransactionIndex) : BDMState :=
  if s.config.persist_tx_index then
    { s with
      transaction_indices := fun x =>
        if x = hash then (s.transaction_indices hash).map (fun _ => tx_index)
        else s.transaction_indices x,
      db := { s.db with transaction_indices :=
          s.db.transaction_indices.insert hash tx_index } }
  else
    { s with transaction_indices :=
        s.transaction_indices.insert hash tx_index }

/-- `transaction_index_by_hash` (`mod.rs` lines 699-716): the uniform read
path when `persist_tx_index` is set (populating only when `update_cache`),
otherwise a memory-only lookup. -/
def transaction_index_by_hash (s : BDMState) (hash : Hash)
    (update_cache : Bool) : Option TransactionIndex × BDMState :=
  if s.config.persist_tx_index then
    let p := getGeneric s.transaction_indices
      (fun k => s.db.transaction_indices k) hash update_cache
    (p.1, { s with transaction_indices := p.2 })
  else
    (s.transaction_indices hash, s)

/-- `insert_local_block_info` (`mod.rs` lines 746-757): the uniform write
path, always persistent. -/
def insert_local_block_info (s : BDMState) (hash : Hash)
    (info : LocalBlockInfo) : BDMState :=
  let p := insertGeneric s.local_block_info s.db.local_block_info hash info
    true
  { s with local_block_info := p.1,
           db := { s.db with local_block_info := p.2 } }

/-- `local_block_info_by_hash` (`mod.rs` lines 759-768). -/
def local_block_info_by_hash (s : BDMState) (hash : Hash) :
    Option LocalBlockInfo × BDMState :=
  let p := getGeneric s.local_block_info (fun k => s.db.local_block_info k)
    hash true
  (p.1, { s with local_block_info := p.2 })

/-- `insert_epoch_execution_context` (`mod.rs` lines 918-931): the uniform
write path on the context family (no cache id). -/
def insert_epoch_execution_context (s : BDMState) (hash : Hash)
    (ctx : EpochExecutionContext) (persistent : Bool) : BDMState :=
  let p := insertGeneric s.epoch_execution_contexts s.db.exec_contexts hash
    ctx persistent
  { s with epoch_execution_contexts := p.1,
           db := { s.db with exec_contexts := p.2 } }

/-- `get_epoch_execution_context` (`mod.rs` lines 935-944): the uniform
read path on the context family.  The source passes `None` as the cache
id, so a db hit never populates the in-memory map. -/
def get_epoch_execution_context (s : BDMState) (hash : Hash) :
    Option EpochExecutionContext × BDMState :=
  let p := getGeneric s.epoch_execution_contexts
    (fun k => s.db.exec_contexts k) hash false
  (p.1, { s with epoch_execution_contexts := p.2 })

/-- `insert_epoch_execution_commitment` (`mod.rs` lines 948-970): build the
commitment and run the uniform write path, always persistent. -/
def insert_epoch_execution_commitment (s : BDMState) (block_hash : Hash)
    (state_root_with_aux_info : Nat) (receipts_root : Hash)
    (logs_bloom_hash : Hash) : BDMState :=
  let commitment : EpochExecutionCommitment :=
    { state_root_with_aux_info := state_root_with_aux_info,
      receipts_root := receipts_root,
      logs_bloom_hash := logs_bloom_hash }
  let p := insertGeneric s.epoch_execution_commitments
    s.db.exec_commitments block_hash commitment true
  { s with epoch_execution_commitments := p.1,
           db := { s.db with exec_commitments := p.2 } }

/-- `get_epoch_execution_commitment` (`mod.rs` lines 973-982): purely
in-memory lookup. -/
def get_epoch_execution_commitment (s : BDMState) (block_hash : Hash) :
    Option EpochExecutionCommitment :=
  s.epoch_execution_commitments block_hash

/-- `epoch_executed` (`mod.rs` lines 1031-1034): the in-memory commitment
exists. -/
def epoch_executed (s : BDMState) (epoch_hash : Hash) : Bool :=
  (get_epoch_execution_commitment s epoch_hash).isSome

/-- The durable-miss tail of `block_execution_result_by_hash_with_epoch`
(`mod.rs` lines 586-605): load the persisted `(pivot, receipts)` record;
if its pivot differs from `assumed_epoch` the result is `none`; otherwise
return the receipts, populating the in-memory entry when `update_cache`. -/
def block_execution_result_db_path (s : BDMState) (hash : Hash)
    (assumed_epoch : Hash) (update_cache : Bool) :
    Option BlockExecutionResult × BDMState :=
  match s.db.block_exec_results hash with
  | none => (none, s)
  | some r =>
    if r.epoch = assumed_epoch then
      if update_cache then
        let ri := match s.block_receipts hash with
          | some ri => ri
          | none => BlockReceiptsInfo.default
        (some r.result,
         { s with block_receipts := (s.block_receipts.insert hash
                        (ri.insert_receipts_at_epoch assumed_epoch
                          r.result)) })
      else (some r.result, s)
    else (none, s)

/-- `block_execution_result_by_hash_with_epoch` (`mod.rs` lines 553-606).
The in-memory branch runs inside `get_mut(..).and_then(..)`: when the map
has an entry for `hash`, the receipts at `assumed_epoch` are looked up
first (recording whether `assumed_epoch` was the current-pivot marker),
then, if `update_pivot_assumption`, the marker is set to `assumed_epoch`
regardless of whether the lookup succeeded.  On an in-memory hit that was
not already on the assumed pivot, the `(assumed_epoch, receipts)` pair is
written back to the durable store.  Otherwise the durable-miss tail runs
on the (possibly marker-updated) state. -/
def block_execution_result_by_hash_with_epoch (s : BDMState) (hash : Hash)
    (assumed_epoch : Hash) (update_pivot_assumption : Bool)
    (update_cache : Bool) : Option BlockExecutionResult × BDMState :=
  match s.block_receipts hash with
  | none =>
      block_execution_result_db_path s hash assumed_epoch update_cache
  | some receipt_info =>
    let r := receipt_info.get_receipts_at_epoch assumed_epoch
    let receipt_info2 := if update_pivot_assumption then
        receipt_info.set_pivot_hash assumed_epoch
      else receipt_info
    let s1 := { s with block_receipts :=
                  (s.block_receipts.insert hash receipt_info2) }
    match r with
    | some (receipts, is_on_pivot) =>
      let s2 := if update_pivot_assumption && !is_on_pivot then
          { s1 with db := { s1.db with block_exec_results :=
                              (s1.db.block_exec_results.insert hash
                                { epoch := assumed_epoch,
                                  result := receipts }) } }
        else s1
      (some receipts, s2)
    | none =>
        block_execution_result_db_path s1 hash assumed_epoch update_cache

/-- `invalidate_block` (`mod.rs` lines 1090-1098): persist an `Invalid`
`LocalBlockInfo` with NULL sequence number and instance id, then insert
the hash into the in-memory invalid-block set. -/
def invalidate_block (s : BDMState) (block_hash : Hash) : BDMState :=
  let block_info : LocalBlockInfo :=
    { status := BlockStatus.Invalid,
      sequence_number := NULLU64,
      instance_id := NULLU64 }
  { s with
    db := { s.db with local_block_info :=
        s.db.local_block_info.insert block_hash block_info },
    invalid_block_set := s.invalid_block_set.insert block_hash }

/-- `verified_invalid` (`mod.rs` lines 1101-1124): answer `(true, None)`
from the in-memory set when it contains the hash; otherwise consult the
durable `LocalBlockInfo`, re-inserting the hash into the set when the
stored status is `Invalid`. -/
def verified_invalid (s : BDMState) (block_hash : Hash) :
    (Bool × Option LocalBlockInfo) × BDMState :=
  if s.invalid_block_set.contains block_hash then ((true, none), s)
  else
    match s.db.local_block_info block_hash with
    | some block_info =>
      match block_info.get_status with
      | BlockStatus.Invalid =>
          ((true, some block_info),
           { s with invalid_block_set :=
               s.invalid_block_set.insert block_hash })
      | _ => ((false, some block_info), s)
    | none => ((false, none), s)

/-- One durable write performed by `initialize_instance_id`. -/
inductive DBWrite
  | localInfo (hash : Hash) (info : LocalBlockInfo)
  | instanceId (id : Nat)
deriving DecidableEq

/-- `initialize_instance_id` (`mod.rs` lines 319-349), instrumented with
the ordered list of durable writes it performs.  With a running id of
zero it adopts `last + 1` when the store holds a last instance id and
keeps `0` otherwise; with a nonzero running id it increments it and, when
the store holds a `LocalBlockInfo` for the current era genesis, rewrites
that record with the new instance id.  The new id is persisted last. -/
def initialize_instance_id_traced (s : BDMState) :
    BDMState × List DBWrite :=
  let step : Nat × BDMState × List DBWrite :=
    if s.instance_id = 0 then
      match s.db.instance_id with
      | some last => (last + 1, s, [])
      | none => (0, s, [])
    else
      let new_id := s.instance_id + 1
      match s.db.local_block_info s.cur_consensus_era_genesis_hash with
      | some info =>
        let info2 := { info with instance_id := new_id }
        (new_id,
         { s with db := { s.db with local_block_info :=
                            (s.db.local_block_info.insert
                              s.cur_consensus_era_genesis_hash info2) } },
         [DBWrite.localInfo s.cur_consensus_era_genesis_hash info2])
      | none => (new_id, s, [])
  let s1 := step.2.1
  ({ s1 with instance_id := step.1,
             db := { s1.db with instance_id := some step.1 } },
   step.2.2 ++ [DBWrite.instanceId step.1])

/-- `initialize_instance_id` without the instrumentation. -/
def initialize_instance_id (s : BDMState) : BDMState :=
  (initialize_instance_id_traced s).1

/-- `get_instance_id` (`mod.rs` line 317). -/
def get_instance_id (s : BDMState) : Nat := s.instance_id

/-- One step of the genesis transaction-indexing loop of
`BlockDataManager::new` (`mod.rs` lines 253-263): index the transaction
at position `p.1` under the era genesis hash. -/
def genesis_tx_seed_step (era_genesis : Hash) (s : BDMState)
    (p : Nat × SignedTransaction) : BDMState :=
  insert_transaction_index s p.2.hash
    { block_hash := era_genesis, index := p.1 }

/-- The freshly built manager of `BlockDataManager::new` (`mod.rs` lines
194-226), before `initialize_instance_id` and the seeding run: empty maps,
era hashes set to the true genesis hash, instance id zero.
`invalid_block_capacity` is `cache_conf.invalid_block_hashes_cache_size_in_count`. -/
def BDMState.fresh (true_genesis : Block)
    (config : DataManagerConfiguration) (invalid_block_capacity : Nat)
    (db : DB) : BDMState :=
  { block_headers := KV.empty
    blocks := KV.empty
    block_receipts := KV.empty
    block_rewards := KV.empty
    block_traces := KV.empty
    transaction_indices := KV.empty
    local_block_info := KV.empty
    blamed_header_verified_roots := KV.empty
    epoch_execution_commitments := KV.empty
    epoch_execution_contexts := KV.empty
    invalid_block_set := InvalidBlockSet.new invalid_block_capacity
    cur_consensus_era_genesis_hash := true_genesis.hash
    cur_consensus_era_stable_hash := true_genesis.hash
    instance_id := 0
    config := config
    true_genesis := true_genesis
    db := db }

/-- `BlockDataManager::new` (`mod.rs` lines 166-315).  The storage manager
is abstracted by `genesis_state_root`, the value `true_genesis_state_root`
would return.  Construction aborts (returns `none`) exactly when the
source would panic on the `expect` for a missing era-genesis execution
context (spec section 7, `InvariantBroken`). -/
def BlockDataManager.new (true_genesis : Block) (genesis_state_root : Nat)
    (config : DataManagerConfiguration) (invalid_block_capacity : Nat)
    (db : DB) : Option BDMState :=
  let s0 := BDMState.fresh true_genesis config invalid_block_capacity db
  let s1 := initialize_instance_id s0
  let cp := match s1.db.checkpoint_hashes with
    | none => (true_genesis.hash, s1)
    | some (checkpoint_hash, stable_hash) =>
        (checkpoint_hash,
         { s1 with cur_consensus_era_genesis_hash := checkpoint_hash,
                   cur_consensus_era_stable_hash := stable_hash })
  let cur_era_genesis_hash := cp.1
  let s2 := cp.2
  if cur_era_genesis_hash = s2.true_genesis.hash then
    let s3 := insert_block s2 s2.true_genesis true
    let s4 := s2.true_genesis.transactions.enum.foldl
      (genesis_tx_seed_step cur_era_genesis_hash) s3
    let s5 := insert_epoch_execution_context s4 cur_era_genesis_hash
      { start_block_number := 0 } true
    let s6 := { s5 with db := { s5.db with local_block_info :=
                  (s5.db.local_block_info.insert s5.true_genesis.hash
                    { status := BlockStatus.Valid,
                      sequence_number := 0,
                      instance_id := get_instance_id s5 }) } }
    some (insert_epoch_execution_commitment s6 s6.true_genesis.hash
      genesis_state_root
      s6.true_genesis.block_header.deferred_receipts_root
      s6.true_genesis.block_header.deferred_logs_bloom_hash)
  else
    match get_epoch_execution_context s2 cur_era_genesis_hash with
    | (none, _) => none
    | (some ctx, s3) =>
      let s4 := insert_epoch_execution_context s3 cur_era_genesis_hash ctx
        false
      match s4.db.local_block_info cur_era_genesis_hash with
      | some info =>
          some { s4 with db := { s4.db with local_block_info :=
                   (s4.db.local_block_info.insert cur_era_genesis_hash
                     { info with instance_id := get_instance_id s4 }) } }
      | none => some s4

/-- `executed_epoch_set_hashes_from_db` (`mod.rs` lines 865-874). -/
def executed_epoch_set_hashes_from_db (s : BDMState) (epoch_number : Nat) :
    Option (List Hash) :=
  if epoch_number ≠ 0 then s.db.executed_epoch_sets epoch_number
  else some [s.true_genesis.hash]

/-- `skipped_epoch_set_hashes_from_db` (`mod.rs` lines 876-885). -/
def skipped_epoch_set_hashes_from_db (s : BDMState) (epoch_number : Nat) :
    Option (List Hash) :=
  if epoch_number ≠ 0 then s.db.skipped_epoch_sets epoch_number
  else some []

/-- `all_epoch_set_hashes_from_db` (`mod.rs` lines 887-903): the skipped
set followed by the executed set. -/
def all_epoch_set_hashes_from_db (s : BDMState) (epoch_number : Nat) :
    Option (List Hash) :=
  if epoch_number ≠ 0 then
    match s.db.skipped_epoch_sets epoch_number with
    | none => none
    | some sk =>
      match s.db.executed_epoch_sets epoch_number with
      | none => none
      | some ex => some (sk ++ ex)
  else some [s.true_genesis.hash]

/-- One durable deletion performed during `gc_epoch`. -/
inductive GCEvent
  | removeTxIndex (tx : Hash)
  | removeBody (hash : Hash)
  | removeExecResult (hash : Hash)
  | removeReward (hash : Hash)
  | removeTrace (hash : Hash)
deriving DecidableEq

/-- The transaction hashes of the bodies of an epoch set, deduplicated
(the `HashSet` of `gc_epoch`; iteration order modelled as first-occurrence
order). -/
def epoch_transaction_set (s : BDMState) (epoch_set : List Hash) :
    List Hash :=
  (epoch_set.flatMap (fun b =>
    match s.db.block_bodies b with
    | some txs => txs.map SignedTransaction.hash
    | none => [])).eraseDups

/-- The durable deletions of `gc_epoch_with_defer` (`mod.rs` lines
1443-1462) for one family, as an ordered event list. -/
def gc_epoch_with_defer_trace (s : BDMState) (epoch_number : Nat)
    (maybe_defer_epochs : Option Nat) (ev : Hash → GCEvent) :
    List GCEvent :=
  match maybe_defer_epochs with
  | none => []
  | some defer_epochs =>
    if epoch_number > defer_epochs then
      match all_epoch_set_hashes_from_db s (epoch_number - defer_epochs) with
      | none => []
      | some epoch_set => epoch_set.map ev
    else []

/-- The transaction-index deletion block at the head of `gc_epoch`
(`mod.rs` lines 1388-1419): when a transaction-index retention depth is
configured and applicable, delete the (deduplicated) transaction indices
of the bodies of epoch `epoch_number - defer_epochs`. -/
def gc_tx_index_trace (s : BDMState) (epoch_number : Nat) : List GCEvent :=
  match s.config.additional_maintained_transaction_index_epoch_count with
  | none => []
  | some defer_epochs =>
    if epoch_number > defer_epochs then
      match all_epoch_set_hashes_from_db s
          (epoch_number - defer_epochs) with
      | none => []
      | some epoch_set =>
          (epoch_transaction_set s epoch_set).map GCEvent.removeTxIndex
    else []

/-- The ordered list of durable deletions performed by `gc_epoch`
(`mod.rs` lines 1385-1441): first the transaction-index deletions (when
configured and applicable), then the body, execution-result, reward and
trace deletions, each gated by its own retention depth. -/
def gc_epoch_trace (s : BDMState) (epoch_number : Nat) : List GCEvent :=
  gc_tx_index_trace s epoch_number
    ++ gc_epoch_with_defer_trace s epoch_number
        s.config.additional_maintained_block_body_epoch_count
        GCEvent.removeBody
    ++ gc_epoch_with_defer_trace s epoch_number
        s.config.additional_maintained_execution_result_epoch_count
        GCEvent.removeExecResult
    ++ gc_epoch_with_defer_trace s epoch_number
        s.config.additional_maintained_reward_epoch_count
        GCEvent.removeReward
    ++ gc_epoch_with_defer_trace s epoch_number
        s.config.additional_maintained_trace_epoch_count
        GCEvent.removeTrace

/-! Concrete fixtures used to instantiate theorems with hypotheses. -/

/-- A concrete configuration with `persist_tx_index` set and all retention
depths configured. -/
def testConfig : DataManagerConfiguration :=
  { persist_tx_index := true
    additional_maintained_block_body_epoch_count := some 5
    additional_maintained_execution_result_epoch_count := some 5
    additional_maintained_reward_epoch_count := some 5
    additional_maintained_trace_epoch_count := some 5
    additional_maintained_transaction_index_epoch_count := some 3
    checkpoint_gc_time_in_epoch_count := 10 }

/-- A concrete genesis block with two transactions. -/
def testGenesis : Block :=
  { block_header :=
      { hash := 100, parent_hash := 0, height := 0,
        deferred_receipts_root := 7, deferred_logs_bloom_hash := 8 }
    transactions := [{ hash := 11 }, { hash := 12 }] }

/-- A concrete manager state over an empty store. -/
def testState : BDMState :=
  BDMState.fresh testGenesis testConfig 10 DB.empty

/-! Theorems settling the claims. -/

/-- C9: for every block hash `h`, `remove_block_traces(h, remove_db=true)`
removes the block-header entry for `h` from the in-memory header map and
from the durable store's header family, and leaves the in-memory
block-traces map and the durable traces family unchanged. -/
theorem C9_remove_block_traces_deletes_header_family (s : BDMState)
    (h : Hash) :
    (remove_block_traces s h true).block_headers h = none ∧
    (remove_block_traces s h true).db.block_headers h = none ∧
    (remove_block_traces s h true).block_traces = s.block_traces ∧
    (remove_block_traces s h true).db.block_traces = s.db.block_traces := by
  refine ⟨?_, ?_, rfl, rfl⟩ <;> simp [remove_block_traces, KV.remove]

/-- C10: with `persist_tx_index = true`, `insert_transaction_index(h, idx)`
always writes `idx` for `h` to the durable store, modifies the in-memory
map only when an entry for `h` is already present (never creating a new
in-memory entry), leaves all other in-memory keys unchanged, and the new
index is still retrievable through `transaction_index_by_hash`. -/
theorem C10_insert_transaction_index_no_new_memory_entry (s : BDMState)
    (h : Hash) (idx : TransactionIndex)
    (hp : s.config.persist_tx_index = true) :
    (insert_transaction_index s h idx).db.transaction_indices h
        = some idx ∧
    (s.transaction_indices h = none →
      (insert_transaction_index s h idx).transaction_indices h = none) ∧
    (∀ v, s.transaction_indices h = some v →
      (insert_transaction_index s h idx).transaction_indices h
        = some idx) ∧
    (∀ k, k ≠ h →
      (insert_transaction_index s h idx).transaction_indices k
        = s.transaction_indices k) ∧
    (transaction_index_by_hash (insert_transaction_index s h idx) h
        true).1 = some idx := by
  refine ⟨?_, ?_, ?_, ?_, ?_⟩
  · simp [insert_transaction_index, hp, KV.insert]
  · intro hnone
    simp [insert_transaction_index, hp, hnone]
  · intro v hv
    simp [insert_transaction_index, hp, hv]
  · intro k hk
    simp [insert_transaction_index, hp, hk]
  · have hcfg : (insert_transaction_index s h idx).config = s.config := by
      simp [insert_transaction_index, hp]
    cases hv : s.transaction_indices h with
    | none =>
        simp [transaction_index_by_hash, hcfg, hp, getGeneric,
          insert_transaction_index, hv, KV.insert]
    | some v =>
        simp [transaction_index_by_hash, hcfg, hp, getGeneric,
          insert_transaction_index, hv, KV.insert]

/-- Witness for C10 at a concrete state: the durable family holds the new
index after the insert. -/
theorem C10_witness :
    (insert_transaction_index testState 5
        { block_hash := 100, index := 0 }).db.transaction_indices 5
      = some { block_hash := 100, index := 0 } :=
  (C10_insert_transaction_index_no_new_memory_entry testState 5
    { block_hash := 100, index := 0 } rfl).1

/-- C4: for the uniform get/insert pattern shared by the entity families
(headers, bodies, traces, rewards, local block info, blamed roots), after
`insert(h, v, persistent=true)` a `get(h)` returns `v`, both while the
in-memory map still holds the entry and after the in-memory entry has
been removed (in which case the value is reloaded from the durable
store).  The first conjunct states this for the generic pattern at any
value type; the remaining conjuncts instantiate it for the header and
traces families of the manager, with the in-memory removal performed by
cache eviction. -/
theorem C4_two_tier_insert_get_round_trip :
    (∀ (V : Type) (in_mem db_map : KV V) (k : Nat) (v : V)
        (populate : Bool),
      (getGeneric (insertGeneric in_mem db_map k v true).1
          (fun x => (insertGeneric in_mem db_map k v true).2 x) k
          populate).1 = some v ∧
      (getGeneric ((insertGeneric in_mem db_map k v true).1.remove k)
          (fun x => (insertGeneric in_mem db_map k v true).2 x) k
          populate).1 = some v) ∧
    (∀ (s : BDMState) (h : Hash) (hd : BlockHeader),
      (block_header_by_hash (insert_block_header s h hd true) h).1
          = some hd ∧
      (block_header_by_hash
          { insert_block_header s h hd true with block_headers :=
              ((insert_block_header s h hd true).block_headers.remove h) }
          h).1 = some hd) ∧
    (∀ (s : BDMState) (h : Hash) (tr : BlockExecTraces),
      (block_traces_by_hash (insert_block_traces s h tr true) h).1
          = some tr ∧
      (block_traces_by_hash
          { insert_block_traces s h tr true with block_traces :=
              ((insert_block_traces s h tr true).block_traces.remove h) }
          h).1 = some tr) := by
  refine ⟨fun V in_mem db_map k v populate => ⟨?_, ?_⟩,
    fun s h hd => ⟨?_, ?_⟩, fun s h tr => ⟨?_, ?_⟩⟩
  · simp [getGeneric, insertGeneric, KV.insert]
  · simp [getGeneric, insertGeneric, KV.insert, KV.remove]
  · simp [block_header_by_hash, insert_block_header, getGeneric,
      insertGeneric, KV.insert]
  · simp [block_header_by_hash, insert_block_header, getGeneric,
      insertGeneric, KV.insert, KV.remove]
  · simp [block_traces_by_hash, insert_block_traces, getGeneric,
      insertGeneric, KV.insert]
  · simp [block_traces_by_hash, insert_block_traces, getGeneric,
      insertGeneric, KV.insert, KV.remove]

/-- C2: on an in-memory miss for `h`, when the durable store holds an
execution result for `h`, `block_execution_result_by_hash_with_epoch`
returns `None` when the recorded pivot differs from the assumed pivot,
and the stored receipts when it matches. -/
theorem C2_db_pivot_assumption_check (s : BDMState) (h p : Hash)
    (upa uc : Bool) (r : BlockExecutionResultWithEpoch)
    (hmem : s.block_receipts h = none)
    (hdb : s.db.block_exec_results h = some r) :
    (r.epoch ≠ p →
      (block_execution_result_by_hash_with_epoch s h p upa uc).1
        = none) ∧
    (r.epoch = p →
      (block_execution_result_by_hash_with_epoch s h p upa uc).1
        = some r.result) := by
  constructor
  · intro hne
    simp [block_execution_result_by_hash_with_epoch, hmem,
      block_execution_result_db_path, hdb, hne]
  · intro heq
    cases uc <;>
      simp [block_execution_result_by_hash_with_epoch, hmem,
        block_execution_result_db_path, hdb, heq]

/-- A concrete execution result recorded under pivot hash `50`. -/
def testExecResult : BlockExecutionResultWithEpoch :=
  { epoch := 50, result := { block_receipts := 500, bloom := 0 } }

/-- A concrete durable store holding one execution result, recorded under
pivot hash `50`. -/
def testDbWithResult : DB :=
  { DB.empty with block_exec_results :=
      (fun h => if h = 1 then some testExecResult else none) }

/-- A concrete manager state over `testDbWithResult`. -/
def testStateWithResult : BDMState :=
  BDMState.fresh testGenesis testConfig 10 testDbWithResult

/-- Witness for C2 at a concrete state: the stored pivot is `50`, so the
call with assumed pivot `51` returns `none` and the call with assumed
pivot `50` returns the stored receipts. -/
theorem C2_witness :
    (block_execution_result_by_hash_with_epoch testStateWithResult 1 51
        true true).1 = none ∧
    (block_execution_result_by_hash_with_epoch testStateWithResult 1 50
        true true).1 = some { block_receipts := 500, bloom := 0 } :=
  ⟨(C2_db_pivot_assumption_check testStateWithResult 1 51 true true
      testExecResult (by rfl) (by rfl)).1 (by decide),
   (C2_db_pivot_assumption_check testStateWithResult 1 50 true true
      testExecResult (by rfl) (by rfl)).2 (by rfl)⟩

/-- C3: on an in-memory hit for `h` with receipts recorded under the
assumed pivot `p` and `update_pivot_assumption = true`, the call returns
those receipts, sets the current-pivot marker of `h` to `p`, and, when
`p` was not already the marker, writes `(p, receipts)` for `h` to the
durable store, overwriting the previously persisted assumption; when `p`
was already the marker, the durable store is left unchanged. -/
theorem C3_pivot_reassignment_writeback (s : BDMState) (h p : Hash)
    (uc : Bool) (ri : BlockReceiptsInfo) (receipts : BlockExecutionResult)
    (hmem : s.block_receipts h = some ri)
    (hr : ri.entries p = some receipts) :
    (block_execution_result_by_hash_with_epoch s h p true uc).1
        = some receipts ∧
    ((block_execution_result_by_hash_with_epoch s h p true
        uc).2.block_receipts h).map BlockReceiptsInfo.pivot
        = some (some p) ∧
    (ri.pivot ≠ some p →
      (block_execution_result_by_hash_with_epoch s h p true
          uc).2.db.block_exec_results h
        = some { epoch := p, result := receipts }) ∧
    (ri.pivot = some p →
      (block_execution_result_by_hash_with_epoch s h p true uc).2.db
        = s.db) := by
  by_cases hpiv : ri.pivot = some p
  · refine ⟨?_, ?_, fun hne => absurd hpiv hne, fun _ => ?_⟩ <;>
      simp [block_execution_result_by_hash_with_epoch, hmem,
        BlockReceiptsInfo.get_receipts_at_epoch, hr, hpiv,
        BlockReceiptsInfo.set_pivot_hash, KV.insert]
  · refine ⟨?_, ?_, fun _ => ?_, fun heq => absurd heq hpiv⟩ <;>
      simp [block_execution_result_by_hash_with_epoch, hmem,
        BlockReceiptsInfo.get_receipts_at_epoch, hr, hpiv,
        BlockReceiptsInfo.set_pivot_hash, KV.insert]

/-- A concrete in-memory receipts record: receipts under pivot `60` while
the current-pivot marker is `50`. -/
def testReceiptsInfo : BlockReceiptsInfo :=
  { entries :=
      (fun e => if e = 60 then some { block_receipts := 600, bloom := 0 }
                else none),
    pivot := some 50 }

/-- A concrete manager state whose in-memory receipts map holds
`testReceiptsInfo` for block hash `1`. -/
def testStateWithReceipts : BDMState :=
  { testState with block_receipts :=
      (fun h => if h = 1 then some testReceiptsInfo else none) }

/-- Witness for C3 at a concrete state: reassigning the pivot of block
`1` from `50` to `60` returns the in-memory receipts and persists the
`(60, receipts)` pair. -/
theorem C3_witness :
    (block_execution_result_by_hash_with_epoch testStateWithReceipts 1 60
        true true).1 = some { block_receipts := 600, bloom := 0 } ∧
    (block_execution_result_by_hash_with_epoch testStateWithReceipts 1 60
        true true).2.db.block_exec_results 1
      = some { epoch := 60,
               result := { block_receipts := 600, bloom := 0 } } := by
  have h := C3_pivot_reassignment_writeback testStateWithReceipts 1 60
    true testReceiptsInfo
    { block_receipts := 600, bloom := 0 } (by rfl) (by rfl)
  exact ⟨h.1, h.2.2.1 (by decide)⟩

/-- Inserting preserves the capacity field. -/
theorem InvalidBlockSet.capacity_insert (s : InvalidBlockSet) (v : Hash) :
    (s.insert v).capacity = s.capacity := by
  unfold InvalidBlockSet.insert
  split
  · rfl
  · split
    · rfl
    · split <;> rfl

/-- One insert keeps the size below `max capacity 1`. -/
theorem InvalidBlockSet.size_insert_le (s : InvalidBlockSet) (v : Hash)
    (h : s.size ≤ max s.capacity 1) :
    (s.insert v).size ≤ max s.capacity 1 := by
  unfold InvalidBlockSet.insert
  split
  · exact h
  · split
    · rename_i hlt
      calc (({ s with invalid_block_hashes :=
                v :: s.invalid_block_hashes } : InvalidBlockSet)).size
          = s.size + 1 := rfl
        _ ≤ s.capacity := hlt
        _ ≤ max s.capacity 1 := le_max_left _ _
    · cases hl : s.invalid_block_hashes with
      | nil => simp [hl, InvalidBlockSet.size, le_max_right]
      | cons a t =>
          simp only [hl, List.head?_cons, List.erase_cons_head,
            InvalidBlockSet.size, List.length_cons]
          have : s.size = t.length + 1 := by
            simp [InvalidBlockSet.size, hl]
          omega

/-- Folding inserts preserves the capacity field. -/
theorem InvalidBlockSet.capacity_foldl_insert (l : List Hash)
    (s : InvalidBlockSet) :
    (l.foldl InvalidBlockSet.insert s).capacity = s.capacity := by
  induction l generalizing s with
  | nil => rfl
  | cons a t ih =>
      simpa [List.foldl_cons, InvalidBlockSet.capacity_insert]
        using ih (s.insert a)

/-- Folding inserts keeps the size below `max capacity 1`. -/
theorem InvalidBlockSet.size_foldl_insert_le (l : List Hash)
    (s : InvalidBlockSet) (h : s.size ≤ max s.capacity 1) :
    (l.foldl InvalidBlockSet.insert s).size ≤ max s.capacity 1 := by
  induction l generalizing s with
  | nil => exact h
  | cons a t ih =>
      have h1 := InvalidBlockSet.size_insert_le s a h
      have h2 := ih (s.insert a)
        (by rwa [InvalidBlockSet.capacity_insert])
      rwa [InvalidBlockSet.capacity_insert] at h2

/-- Counterexample to C5 as stated: an `InvalidBlockSet` of capacity `0`
accepts one element (`iter().next()` finds nothing to evict and the
insert still happens), so the stored count exceeds the capacity. -/
theorem C5_counterexample :
    ((InvalidBlockSet.new 0).insert 1).size = 1 ∧
    ¬ ((InvalidBlockSet.new 0).insert 1).size
        ≤ (InvalidBlockSet.new 0).capacity := by
  decide

/-- C5 (amended): for a capacity `C ≥ 1` the stored count never exceeds
`C` after any sequence of inserts (for `C = 0` it is bounded by `1`, i.e.
by `max C 1` in general); `insert(h)` is a no-op when `h` is present,
prepends `h` while below capacity, and otherwise, when the set is
nonempty, evicts exactly one existing element and adds `h`. -/
theorem C5_invalid_block_set_bound :
    (∀ (C : Nat) (l : List Hash), 1 ≤ C →
      (l.foldl InvalidBlockSet.insert (InvalidBlockSet.new C)).size ≤ C) ∧
    (∀ (C : Nat) (l : List Hash),
      (l.foldl InvalidBlockSet.insert (InvalidBlockSet.new C)).size
        ≤ max C 1) ∧
    (∀ (s : InvalidBlockSet) (h : Hash),
      s.contains h = true → s.insert h = s) ∧
    (∀ (s : InvalidBlockSet) (h : Hash),
      s.contains h = false → s.size < s.capacity →
      (s.insert h).invalid_block_hashes = h :: s.invalid_block_hashes) ∧
    (∀ (s : InvalidBlockSet) (h : Hash),
      s.contains h = false → ¬ s.size < s.capacity → 0 < s.size →
      (s.insert h).size = s.size ∧ (s.insert h).contains h = true ∧
      ∃ e, e ∈ s.invalid_block_hashes ∧
        (s.insert h).invalid_block_hashes
          = h :: s.invalid_block_hashes.erase e) := by
  refine ⟨?_, ?_, ?_, ?_, ?_⟩
  · intro C l hC
    have h := InvalidBlockSet.size_foldl_insert_le l
      (InvalidBlockSet.new C)
      (by simp [InvalidBlockSet.size, InvalidBlockSet.new])
    simpa [InvalidBlockSet.new, max_eq_left hC] using h
  · intro C l
    have h := InvalidBlockSet.size_foldl_insert_le l
      (InvalidBlockSet.new C)
      (by simp [InvalidBlockSet.size, InvalidBlockSet.new])
    simpa [InvalidBlockSet.new] using h
  · intro s h hc
    have hm : h ∈ s.invalid_block_hashes := by
      simpa [InvalidBlockSet.contains] using hc
    unfold InvalidBlockSet.insert
    rw [if_pos (by simpa using hm)]
  · intro s h hc hlt
    have hm : h ∉ s.invalid_block_hashes := by
      simpa [InvalidBlockSet.contains] using hc
    simp only [InvalidBlockSet.size] at hlt
    unfold InvalidBlockSet.insert
    rw [if_neg (by simpa using hm), if_pos hlt]
  · intro s h hc hge hpos
    have hm : h ∉ s.invalid_block_hashes := by
      simpa [InvalidBlockSet.contains] using hc
    simp only [InvalidBlockSet.size] at hge hpos
    cases hl : s.invalid_block_hashes with
    | nil => rw [hl] at hpos; simp at hpos
    | cons a t =>
        rw [hl] at hm hge
        have hm2 : ¬ (a :: t).contains h = true := by simpa using hm
        unfold InvalidBlockSet.insert
        rw [hl, if_neg hm2, if_neg hge]
        simp only [List.head?_cons, List.erase_cons_head]
        refine ⟨?_, ?_, a, by simp, by simp⟩
        · simp only [InvalidBlockSet.size, hl, List.length_cons]
        · simp [InvalidBlockSet.contains]

/-- Witness for C5 (amended): the bound at capacity `2` over three
inserts, and a no-op insert on a set already containing the element. -/
theorem C5_witness :
    (([1, 2, 3] : List Hash).foldl InvalidBlockSet.insert
        (InvalidBlockSet.new 2)).size ≤ 2 ∧
    InvalidBlockSet.insert
        { capacity := 2, invalid_block_hashes := [5] } 5
      = { capacity := 2, invalid_block_hashes := [5] } :=
  ⟨C5_invalid_block_set_bound.1 2 [1, 2, 3] (by decide),
   C5_invalid_block_set_bound.2.2.1
     { capacity := 2, invalid_block_hashes := [5] } 5 (by decide)⟩

/-- An insert always leaves the inserted element in the set (even at
capacity, where it replaces the evicted element). -/
theorem InvalidBlockSet.contains_insert_self (s : InvalidBlockSet)
    (v : Hash) : (s.insert v).contains v = true := by
  unfold InvalidBlockSet.insert
  by_cases hc : s.invalid_block_hashes.contains v = true
  · rw [if_pos hc]
    exact hc
  · rw [if_neg hc]
    split
    · simp [InvalidBlockSet.contains]
    · split <;> simp [InvalidBlockSet.contains]

/-- Counterexample to C6 as stated: right after `invalidate_block(X)` the
in-memory invalid-block set contains `X`, so `verified_invalid(X)`
answers `(true, None)` from the set without consulting the durable store;
it does not return the stored `LocalBlockInfo`. -/
theorem C6_counterexample :
    (verified_invalid (invalidate_block testState 1) 1).1 = (true, none) ∧
    ¬ ∃ info : LocalBlockInfo,
        (verified_invalid (invalidate_block testState 1) 1).1
          = (true, some info) := by
  refine ⟨by decide, ?_⟩
  rintro ⟨info, hinfo⟩
  have h1 : (verified_invalid (invalidate_block testState 1) 1).1
      = ((true : Bool), (none : Option LocalBlockInfo)) := by decide
  rw [h1] at hinfo
  simp at hinfo

/-- C6 (amended): after `invalidate_block(X)`, `verified_invalid(X)`
returns `(true, None)` (the in-memory set answers before the durable
store is consulted), and a `LocalBlockInfo` with status `Invalid` and
NULL sequence number and instance id has been written to the durable
store for `X`. -/
theorem C6_invalidate_block_marks_invalid (s : BDMState) (X : Hash) :
    (verified_invalid (invalidate_block s X) X).1 = (true, none) ∧
    (invalidate_block s X).db.local_block_info X
      = some { status := BlockStatus.Invalid,
               sequence_number := NULLU64,
               instance_id := NULLU64 } := by
  constructor
  · have hc : (invalidate_block s X).invalid_block_set.contains X
        = true := by
      show (s.invalid_block_set.insert X).contains X = true
      exact InvalidBlockSet.contains_insert_self s.invalid_block_set X
    unfold verified_invalid
    rw [if_pos hc]
  · simp [invalidate_block, KV.insert]

/-- A concrete durable local-block-info family holding a record for the
era genesis (hash `100`). -/
def testLocalInfoMap : KV LocalBlockInfo :=
  fun h =>
    if h = 100 then
      some { status := BlockStatus.Valid, sequence_number := 0,
             instance_id := 3 }
    else none

/-- A concrete manager state with a nonzero running instance id whose
store holds a `LocalBlockInfo` for the era genesis (hash `100`). -/
def testStateNonzero : BDMState :=
  { testState with
    instance_id := 3,
    db := { DB.empty with local_block_info := testLocalInfoMap } }

/-- Counterexample to C7 as stated.  First part: over an empty durable
store (no last instance id) with a running id of zero,
`initialize_instance_id` leaves the id at `0`, not `1`: the source only
assigns `last + 1` when a last id was loaded.  Second part: with a
nonzero running id, the era-genesis `LocalBlockInfo` refresh is written
to the durable store before the new instance id, so the id is not
persisted before other data is written under it. -/
theorem C7_counterexample :
    ((initialize_instance_id testState).instance_id = 0 ∧
      (0 : Nat) ≠ 1) ∧
    (initialize_instance_id_traced testStateNonzero).2
      = [DBWrite.localInfo 100
           { status := BlockStatus.Valid, sequence_number := 0,
             instance_id := 4 },
         DBWrite.instanceId 4] := by
  decide

/-- C7 (amended): with a running id of zero, the new id is `last + 1`
when the store holds `last` (the id write being the only durable write,
and strictly above `last`), and stays `0` when the store holds none (so
ids recorded across restarts are still strictly increasing, starting at
`0`); with a nonzero running id, the id is incremented and the only
durable write besides the id write is the era-genesis `LocalBlockInfo`
refresh, which precedes the id write and already carries the new id; in
every case the new id is persisted. -/
theorem C7_instance_id_lifecycle (s : BDMState) :
    (∀ last, s.instance_id = 0 → s.db.instance_id = some last →
      (initialize_instance_id_traced s).1.instance_id = last + 1 ∧
      (initialize_instance_id_traced s).2
        = [DBWrite.instanceId (last + 1)] ∧
      last < (initialize_instance_id_traced s).1.instance_id) ∧
    (s.instance_id = 0 → s.db.instance_id = none →
      (initialize_instance_id_traced s).1.instance_id = 0 ∧
      (initialize_instance_id_traced s).2 = [DBWrite.instanceId 0]) ∧
    (s.instance_id ≠ 0 →
      (initialize_instance_id_traced s).1.instance_id
        = s.instance_id + 1 ∧
      ((initialize_instance_id_traced s).2
          = [DBWrite.instanceId (s.instance_id + 1)] ∨
        ∃ info, (initialize_instance_id_traced s).2
            = [DBWrite.localInfo s.cur_consensus_era_genesis_hash info,
               DBWrite.instanceId (s.instance_id + 1)] ∧
          info.instance_id = s.instance_id + 1)) ∧
    (initialize_instance_id_traced s).1.db.instance_id
      = some (initialize_instance_id_traced s).1.instance_id := by
  refine ⟨?_, ?_, ?_, ?_⟩
  · intro last h0 hdb
    refine ⟨?_, ?_, ?_⟩ <;>
      simp [initialize_instance_id_traced, h0, hdb]
  · intro h0 hdb
    constructor <;> simp [initialize_instance_id_traced, h0, hdb]
  · intro h0
    cases hli : s.db.local_block_info s.cur_consensus_era_genesis_hash with
    | none =>
        constructor <;> simp [initialize_instance_id_traced, h0, hli]
    | some info =>
        refine ⟨?_,
          Or.inr ⟨{ info with instance_id := s.instance_id + 1 },
            ?_, rfl⟩⟩ <;>
          simp [initialize_instance_id_traced, h0, hli]
  · by_cases h0 : s.instance_id = 0
    · cases hdb : s.db.instance_id <;>
        simp [initialize_instance_id_traced, h0, hdb]
    · cases hli : s.db.local_block_info
          s.cur_consensus_era_genesis_hash <;>
        simp [initialize_instance_id_traced, h0, hli]

/-- A concrete manager state whose durable store holds a last instance
id of `7`. -/
def testStateInstance : BDMState :=
  { testState with db := { DB.empty with instance_id := some 7 } }

/-- Witness for C7 (amended): restarting over a store holding last id `7`
adopts id `8`. -/
theorem C7_witness :
    (initialize_instance_id_traced testStateInstance).1.instance_id
      = 8 :=
  ((C7_instance_id_lifecycle testStateInstance).1 7 rfl rfl).1

/-- Discriminator for transaction-index deletions. -/
def GCEvent.isTxIndexRemoval : GCEvent → Bool
  | .removeTxIndex _ => true
  | _ => false

/-- Discriminator for block-body deletions. -/
def GCEvent.isBodyRemoval : GCEvent → Bool
  | .removeBody _ => true
  | _ => false

/-- In a concatenation whose first part carries no `Q`-events and whose
second part carries no `P`-events, every `P`-event precedes every
`Q`-event. -/
theorem append_event_ordering {α : Type} (P Q : α → Bool) (A B : List α)
    (hA : ∀ ev ∈ A, Q ev = false) (hB : ∀ ev ∈ B, P ev = false) :
    ∀ i j (hi : i < (A ++ B).length) (hj : j < (A ++ B).length),
      P ((A ++ B)[i]) = true → Q ((A ++ B)[j]) = true → i < j := by
  intro i j hi hj hPi hQj
  have hiA : i < A.length := by
    by_contra hge
    push_neg at hge
    rw [List.getElem_append_right hge] at hPi
    exact absurd hPi (by simp [hB _ (List.getElem_mem _)])
  have hjB : A.length ≤ j := by
    by_contra hlt
    push_neg at hlt
    rw [List.getElem_append_left hlt] at hQj
    exact absurd hQj (by simp [hA _ (List.getElem_mem _)])
  omega

/-- Every event of a `gc_epoch_with_defer_trace` is built by its event
constructor. -/
theorem mem_gc_epoch_with_defer_trace (s : BDMState) (epoch_number : Nat)
    (d : Option Nat) (ev : Hash → GCEvent) (x : GCEvent)
    (hx : x ∈ gc_epoch_with_defer_trace s epoch_number d ev) :
    ∃ h, x = ev h := by
  unfold gc_epoch_with_defer_trace at hx
  split at hx
  · simp at hx
  · split at hx
    · split at hx
      · simp at hx
      · obtain ⟨h, _, rfl⟩ := List.mem_map.mp hx
        exact ⟨h, rfl⟩
    · simp at hx

/-- Every event of a `gc_tx_index_trace` is a transaction-index
deletion. -/
theorem mem_gc_tx_index_trace (s : BDMState) (epoch_number : Nat)
    (x : GCEvent) (hx : x ∈ gc_tx_index_trace s epoch_number) :
    ∃ t, x = GCEvent.removeTxIndex t := by
  unfold gc_tx_index_trace at hx
  split at hx
  · simp at hx
  · split at hx
    · split at hx
      · simp at hx
      · obtain ⟨h, _, rfl⟩ := List.mem_map.mp hx
        exact ⟨h, rfl⟩
    · simp at hx

/-- C8: in every execution of `gc_epoch(e)` in which both the
transaction-index retention depth and the body retention depth are
configured and applicable, every durable transaction-index deletion
happens before any durable block-body deletion: in the ordered deletion
trace, any position holding a tx-index deletion is strictly earlier than
any position holding a body deletion. -/
theorem C8_gc_tx_index_before_bodies (s : BDMState)
    (e dtx dbody : Nat)
    (htx : s.config.additional_maintained_transaction_index_epoch_count
        = some dtx)
    (hbody : s.config.additional_maintained_block_body_epoch_count
        = some dbody)
    (htx_app : dtx < e) (hbody_app : dbody < e) :
    ∀ i j (hi : i < (gc_epoch_trace s e).length)
        (hj : j < (gc_epoch_trace s e).length),
      GCEvent.isTxIndexRemoval ((gc_epoch_trace s e)[i]) = true →
      GCEvent.isBodyRemoval ((gc_epoch_trace s e)[j]) = true →
      i < j := by
  have hsplit : ∃ A B, gc_epoch_trace s e = A ++ B ∧
      (∀ ev ∈ A, GCEvent.isBodyRemoval ev = false) ∧
      (∀ ev ∈ B, GCEvent.isTxIndexRemoval ev = false) := by
    refine ⟨gc_tx_index_trace s e,
      gc_epoch_with_defer_trace s e
          s.config.additional_maintained_block_body_epoch_count
          GCEvent.removeBody
        ++ gc_epoch_with_defer_trace s e
            s.config.additional_maintained_execution_result_epoch_count
            GCEvent.removeExecResult
        ++ gc_epoch_with_defer_trace s e
            s.config.additional_maintained_reward_epoch_count
            GCEvent.removeReward
        ++ gc_epoch_with_defer_trace s e
            s.config.additional_maintained_trace_epoch_count
            GCEvent.removeTrace,
      ?_, ?_, ?_⟩
    · unfold gc_epoch_trace
      simp [List.append_assoc]
    · intro ev hev
      obtain ⟨t, rfl⟩ := mem_gc_tx_index_trace s e ev hev
      rfl
    · intro ev hev
      rcases List.mem_append.mp hev with hrest | h4
      rotate_left
      · obtain ⟨h, rfl⟩ := mem_gc_epoch_with_defer_trace s e _ _ ev h4
        rfl
      rcases List.mem_append.mp hrest with hrest2 | h3
      rotate_left
      · obtain ⟨h, rfl⟩ := mem_gc_epoch_with_defer_trace s e _ _ ev h3
        rfl
      rcases List.mem_append.mp hrest2 with h1 | h2
      · obtain ⟨h, rfl⟩ := mem_gc_epoch_with_defer_trace s e _ _ ev h1
        rfl
      · obtain ⟨h, rfl⟩ := mem_gc_epoch_with_defer_trace s e _ _ ev h2
        rfl
  obtain ⟨A, B, heq, hA, hB⟩ := hsplit
  have hlen : (gc_epoch_trace s e).length = (A ++ B).length := by
    rw [heq]
  intro i j hi hj hPi hQj
  have hi2 : i < (A ++ B).length := hlen ▸ hi
  have hj2 : j < (A ++ B).length := hlen ▸ hj
  rw [List.getElem_of_eq heq hi] at hPi
  rw [List.getElem_of_eq heq hj] at hQj
  exact append_event_ordering GCEvent.isTxIndexRemoval
    GCEvent.isBodyRemoval A B hA hB i j hi2 hj2 hPi hQj

/-- `insert_transaction_index` touches neither the blocks map nor the
configuration nor the other maps. -/
theorem insert_transaction_index_frame (s : BDMState) (h : Hash)
    (idx : TransactionIndex) :
    (insert_transaction_index s h idx).blocks = s.blocks ∧
    (insert_transaction_index s h idx).config = s.config := by
  unfold insert_transaction_index
  split <;> exact ⟨rfl, rfl⟩

/-- `insert_transaction_index` leaves every other key of the in-memory
and durable transaction-index maps unchanged. -/
theorem insert_transaction_index_other_key (s : BDMState) (h : Hash)
    (idx : TransactionIndex) (k : Hash) (hk : k ≠ h) :
    (insert_transaction_index s h idx).transaction_indices k
        = s.transaction_indices k ∧
    (insert_transaction_index s h idx).db.transaction_indices k
        = s.db.transaction_indices k := by
  unfold insert_transaction_index
  split <;> constructor <;> simp [KV.insert, hk]

/-- The genesis transaction-indexing loop touches neither the blocks map
nor the configuration. -/
theorem foldl_tx_seed_frame (gh : Hash)
    (l : List (Nat × SignedTransaction)) (s : BDMState) :
    (l.foldl (genesis_tx_seed_step gh) s).blocks = s.blocks ∧
    (l.foldl (genesis_tx_seed_step gh) s).config = s.config := by
  induction l generalizing s with
  | nil => exact ⟨rfl, rfl⟩
  | cons a t ih =>
      have hstep := insert_transaction_index_frame s a.2.hash
        { block_hash := gh, index := a.1 }
      have hrec := ih (genesis_tx_seed_step gh s a)
      exact ⟨hrec.1.trans hstep.1, hrec.2.trans hstep.2⟩

/-- The genesis transaction-indexing loop leaves transaction-index keys
outside the processed hashes unchanged. -/
theorem foldl_tx_seed_frame_key (gh : Hash)
    (l : List (Nat × SignedTransaction)) (s : BDMState) (k : Hash)
    (hk : k ∉ l.map (fun p => p.2.hash)) :
    (l.foldl (genesis_tx_seed_step gh) s).transaction_indices k
        = s.transaction_indices k ∧
    (l.foldl (genesis_tx_seed_step gh) s).db.transaction_indices k
        = s.db.transaction_indices k := by
  induction l generalizing s with
  | nil => exact ⟨rfl, rfl⟩
  | cons a t ih =>
      simp only [List.map_cons, List.mem_cons, not_or] at hk
      have hstep := insert_transaction_index_other_key s a.2.hash
        { block_hash := gh, index := a.1 } k hk.1
      have hrec := ih (genesis_tx_seed_step gh s a) hk.2
      exact ⟨hrec.1.trans hstep.1, hrec.2.trans hstep.2⟩

/-- The genesis transaction-indexing loop does not change the blocks
map. -/
theorem foldl_tx_seed_blocks (gh : Hash)
    (l : List (Nat × SignedTransaction)) (s : BDMState) :
    (l.foldl (genesis_tx_seed_step gh) s).blocks = s.blocks :=
  (foldl_tx_seed_frame gh l s).1

/-- The genesis transaction-indexing loop does not change the
configuration. -/
theorem foldl_tx_seed_config (gh : Hash)
    (l : List (Nat × SignedTransaction)) (s : BDMState) :
    (l.foldl (genesis_tx_seed_step gh) s).config = s.config :=
  (foldl_tx_seed_frame gh l s).2

/-- The genesis transaction-indexing loop does not change the recorded
true genesis block or the instance id or the in-memory context and
commitment maps. -/
theorem foldl_tx_seed_frame2 (gh : Hash)
    (l : List (Nat × SignedTransaction)) (s : BDMState) :
    (l.foldl (genesis_tx_seed_step gh) s).true_genesis = s.true_genesis ∧
    (l.foldl (genesis_tx_seed_step gh) s).instance_id = s.instance_id ∧
    (l.foldl (genesis_tx_seed_step gh) s).epoch_execution_contexts
        = s.epoch_execution_contexts ∧
    (l.foldl (genesis_tx_seed_step gh) s).epoch_execution_commitments
        = s.epoch_execution_commitments := by
  induction l generalizing s with
  | nil => exact ⟨rfl, rfl, rfl, rfl⟩
  | cons a t ih =>
      have hstep : (genesis_tx_seed_step gh s a).true_genesis
            = s.true_genesis ∧
          (genesis_tx_seed_step gh s a).instance_id = s.instance_id ∧
          (genesis_tx_seed_step gh s a).epoch_execution_contexts
            = s.epoch_execution_contexts ∧
          (genesis_tx_seed_step gh s a).epoch_execution_commitments
            = s.epoch_execution_commitments := by
        unfold genesis_tx_seed_step insert_transaction_index
        split <;> exact ⟨rfl, rfl, rfl, rfl⟩
      have hrec := ih (genesis_tx_seed_step gh s a)
      exact ⟨hrec.1.trans hstep.1, hrec.2.1.trans hstep.2.1,
        hrec.2.2.1.trans hstep.2.2.1, hrec.2.2.2.trans hstep.2.2.2⟩

/-- The genesis transaction-indexing loop does not change the recorded
true genesis block. -/
theorem foldl_tx_seed_true_genesis (gh : Hash)
    (l : List (Nat × SignedTransaction)) (s : BDMState) :
    (l.foldl (genesis_tx_seed_step gh) s).true_genesis = s.true_genesis :=
  (foldl_tx_seed_frame2 gh l s).1

/-- The genesis transaction-indexing loop does not change the in-memory
execution-context map. -/
theorem foldl_tx_seed_contexts (gh : Hash)
    (l : List (Nat × SignedTransaction)) (s : BDMState) :
    (l.foldl (genesis_tx_seed_step gh) s).epoch_execution_contexts
      = s.epoch_execution_contexts :=
  (foldl_tx_seed_frame2 gh l s).2.2.1

/-- The genesis transaction-indexing loop does not change the in-memory
commitment map. -/
theorem foldl_tx_seed_commitments (gh : Hash)
    (l : List (Nat × SignedTransaction)) (s : BDMState) :
    (l.foldl (genesis_tx_seed_step gh) s).epoch_execution_commitments
      = s.epoch_execution_commitments :=
  (foldl_tx_seed_frame2 gh l s).2.2.2

/-- The effect of the genesis transaction-indexing loop on the entry of a
transaction listed at position `i`, when the listed hashes are distinct:
with `persist_tx_index` the durable family records the index while the
in-memory map entry is left as it was when absent; without it the
in-memory map records the index. -/
theorem foldl_tx_seed_writes (gh : Hash)
    (l : List (Nat × SignedTransaction)) (s : BDMState) (i : Nat)
    (tx : SignedTransaction) (hin : (i, tx) ∈ l)
    (hnd : (l.map (fun p => p.2.hash)).Nodup) :
    (s.config.persist_tx_index = true →
      (l.foldl (genesis_tx_seed_step gh) s).db.transaction_indices tx.hash
        = some { block_hash := gh, index := i } ∧
      (s.transaction_indices tx.hash = none →
        (l.foldl (genesis_tx_seed_step gh) s).transaction_indices tx.hash
          = none)) ∧
    (s.config.persist_tx_index = false →
      (l.foldl (genesis_tx_seed_step gh) s).transaction_indices tx.hash
        = some { block_hash := gh, index := i }) := by
  induction l generalizing s with
  | nil => simp at hin
  | cons a t ih =>
      simp only [List.map_cons, List.nodup_cons] at hnd
      simp only [List.foldl_cons]
      rcases List.mem_cons.mp hin with heq | hmem
      · subst heq
        have hfr := foldl_tx_seed_frame_key gh t
          (genesis_tx_seed_step gh s (i, tx)) tx.hash hnd.1
        constructor
        · intro hp
          constructor
          · rw [hfr.2]
            show (insert_transaction_index s tx.hash
              { block_hash := gh, index := i }).db.transaction_indices
                tx.hash = _
            simp [insert_transaction_index, hp, KV.insert]
          · intro hmemnone
            rw [hfr.1]
            show (insert_transaction_index s tx.hash
              { block_hash := gh, index := i }).transaction_indices
                tx.hash = _
            simp [insert_transaction_index, hp, hmemnone]
        · intro hp
          rw [hfr.1]
          show (insert_transaction_index s tx.hash
            { block_hash := gh, index := i }).transaction_indices tx.hash
              = _
          simp [insert_transaction_index, hp, KV.insert]
      · have hne : a.2.hash ≠ tx.hash := by
          intro hcontra
          exact hnd.1 (hcontra ▸ List.mem_map_of_mem
            (fun p => p.2.hash) hmem)
        have hstep := insert_transaction_index_other_key s a.2.hash
          { block_hash := gh, index := a.1 } tx.hash (Ne.symm hne)
        have hcfg := (insert_transaction_index_frame s a.2.hash
          { block_hash := gh, index := a.1 }).2
        have hrec := ih (genesis_tx_seed_step gh s a) hmem hnd.2
        constructor
        · intro hp
          have hp2 : (genesis_tx_seed_step gh s a).config.persist_tx_index
              = true := by rw [show (genesis_tx_seed_step gh s a).config
                = s.config from hcfg]; exact hp
          refine ⟨(hrec.1 hp2).1, fun hmemnone => ?_⟩
          exact (hrec.1 hp2).2 (hstep.1.trans hmemnone)
        · intro hp
          have hp2 : (genesis_tx_seed_step gh s a).config.persist_tx_index
              = false := by rw [show (genesis_tx_seed_step gh s a).config
                = s.config from hcfg]; exact hp
          exact hrec.2 hp2

/-- The manager state produced by the genesis branch of
`BlockDataManager::new` over an empty durable store, written out: the
instance id stays `0` and is persisted, then the genesis block, its
transaction indices, its execution context, its `LocalBlockInfo` and its
execution commitment are seeded. -/
def new_genesis_seeded (G : Block) (root : Nat)
    (cfg : DataManagerConfiguration) (cap : Nat) : BDMState :=
  let s2 := { BDMState.fresh G cfg cap DB.empty with
              db := { DB.empty with instance_id := some 0 } }
  let s3 := insert_block s2 s2.true_genesis true
  let s4 := s2.true_genesis.transactions.enum.foldl
    (genesis_tx_seed_step G.hash) s3
  let s5 := insert_epoch_execution_context s4 G.hash
    { start_block_number := 0 } true
  let s6 := { s5 with db := { s5.db with local_block_info :=
      (s5.db.local_block_info.insert s5.true_genesis.hash
        { status := BlockStatus.Valid, sequence_number := 0,
          instance_id := get_instance_id s5 }) } }
  insert_epoch_execution_commitment s6 s6.true_genesis.hash root
    s6.true_genesis.block_header.deferred_receipts_root
    s6.true_genesis.block_header.deferred_logs_bloom_hash

/-- Over an empty durable store, `BlockDataManager::new` takes the
genesis branch and returns the seeded state. -/
theorem new_empty_store_eq (G : Block) (root : Nat)
    (cfg : DataManagerConfiguration) (cap : Nat) :
    BlockDataManager.new G root cfg cap DB.empty
      = some (new_genesis_seeded G root cfg cap) := by
  unfold BlockDataManager.new new_genesis_seeded
  simp only [BDMState.fresh, DB.empty, initialize_instance_id,
    initialize_instance_id_traced, KV.empty, eq_self_iff_true, ite_true]

/-- The state of the seeded manager just before the transaction-indexing
loop runs (a definitionally-equal rendering of its fold base). -/
def seed_base (G : Block) (cfg : DataManagerConfiguration) (cap : Nat) :
    BDMState :=
  insert_block { BDMState.fresh G cfg cap DB.empty with
                 db := { DB.empty with instance_id := some 0 } } G true

/-- Reading a transaction index through `transaction_index_by_hash`: with
`persist_tx_index`, an in-memory miss falls back to the durable entry;
without it, the in-memory entry is returned. -/
theorem transaction_index_read_general (s : BDMState) (k : Hash)
    (uc : Bool) (idx : TransactionIndex) :
    (s.config.persist_tx_index = true → s.transaction_indices k = none →
      s.db.transaction_indices k = some idx →
      (transaction_index_by_hash s k uc).1 = some idx) ∧
    (s.config.persist_tx_index = false →
      s.transaction_indices k = some idx →
      (transaction_index_by_hash s k uc).1 = some idx) := by
  constructor
  · intro hp hmem hdb
    cases uc <;> simp [transaction_index_by_hash, getGeneric, hp, hmem, hdb]
  · intro hp hmem
    simp [transaction_index_by_hash, getGeneric, hp, hmem]

/-- C1: constructing a `BlockDataManager` over an empty durable store
with true genesis `G` (whose transaction hashes are distinct) seeds the
manager so that `block_by_hash(G.hash)` returns `G`, every transaction at
position `i` of `G` has a transaction index `{block_hash := G.hash,
index := i}`, `get_epoch_execution_context(G.hash)` returns
`{start_block_number := 0}`, and `epoch_executed(G.hash)` is true. -/
theorem C1_era_genesis_seeding (G : Block) (root : Nat)
    (cfg : DataManagerConfiguration) (cap : Nat) (uc uc2 : Bool)
    (hnd : (G.transactions.map SignedTransaction.hash).Nodup) :
    ∃ s, BlockDataManager.new G root cfg cap DB.empty = some s ∧
      (block_by_hash s G.hash uc).1 = some G ∧
      (∀ i tx, G.transactions[i]? = some tx →
        (transaction_index_by_hash s tx.hash uc2).1
          = some { block_hash := G.hash, index := i }) ∧
      (get_epoch_execution_context s G.hash).1
        = some { start_block_number := 0 } ∧
      epoch_executed s G.hash = true := by
  refine ⟨new_genesis_seeded G root cfg cap,
    new_empty_store_eq G root cfg cap, ?_, ?_, ?_, ?_⟩
  · unfold new_genesis_seeded
    simp only [block_by_hash, getGeneric,
      insert_epoch_execution_commitment, insert_epoch_execution_context,
      insertGeneric, foldl_tx_seed_blocks, foldl_tx_seed_true_genesis,
      insert_block, insert_block_body, insert_block_header,
      BDMState.fresh, DB.empty, KV.insert, KV.empty, Block.hash,
      eq_self_iff_true, ite_true]
  · intro i tx hget
    have hin : (i, tx) ∈ G.transactions.enum :=
      List.mk_mem_enum_iff_getElem?.mpr hget
    have hnd2 : (G.transactions.enum.map (fun p => p.2.hash)).Nodup := by
      have h1 : (G.transactions.enum.map (fun p => p.2.hash))
          = G.transactions.map SignedTransaction.hash := by
        rw [show (fun p : Nat × SignedTransaction => p.2.hash)
            = (SignedTransaction.hash ∘ Prod.snd) from rfl, ← List.map_map]
        congr 1
        exact List.enumFrom_map_snd 0 G.transactions
      rw [h1]
      exact hnd
    have hw := foldl_tx_seed_writes G.hash G.transactions.enum
      (seed_base G cfg cap) i tx hin hnd2
    cases hp : cfg.persist_tx_index with
    | true =>
        refine (transaction_index_read_general
          (new_genesis_seeded G root cfg cap) tx.hash uc2
          { block_hash := G.hash, index := i }).1 ?_ ?_ ?_
        · show (G.transactions.enum.foldl (genesis_tx_seed_step G.hash)
            (seed_base G cfg cap)).config.persist_tx_index = true
          rw [foldl_tx_seed_config]
          exact hp
        · show (G.transactions.enum.foldl (genesis_tx_seed_step G.hash)
            (seed_base G cfg cap)).transaction_indices tx.hash = none
          exact (hw.1 hp).2 rfl
        · show (G.transactions.enum.foldl (genesis_tx_seed_step G.hash)
            (seed_base G cfg cap)).db.transaction_indices tx.hash
              = some { block_hash := G.hash, index := i }
          exact (hw.1 hp).1
    | false =>
        refine (transaction_index_read_general
          (new_genesis_seeded G root cfg cap) tx.hash uc2
          { block_hash := G.hash, index := i }).2 ?_ ?_
        · show (G.transactions.enum.foldl (genesis_tx_seed_step G.hash)
            (seed_base G cfg cap)).config.persist_tx_index = false
          rw [foldl_tx_seed_config]
          exact hp
        · show (G.transactions.enum.foldl (genesis_tx_seed_step G.hash)
            (seed_base G cfg cap)).transaction_indices tx.hash
              = some { block_hash := G.hash, index := i }
          exact hw.2 hp
  · unfold new_genesis_seeded
    simp only [get_epoch_execution_context, getGeneric,
      insert_epoch_execution_commitment, insert_epoch_execution_context,
      insertGeneric, foldl_tx_seed_true_genesis, foldl_tx_seed_contexts,
      insert_block, insert_block_body, insert_block_header,
      BDMState.fresh, DB.empty, KV.insert, KV.empty, Block.hash,
      eq_self_iff_true, ite_true]
  · unfold new_genesis_seeded
    simp only [epoch_executed, get_epoch_execution_commitment,
      insert_epoch_execution_commitment, insert_epoch_execution_context,
      insertGeneric, foldl_tx_seed_true_genesis, foldl_tx_seed_commitments,
      insert_block, insert_block_body, insert_block_header,
      BDMState.fresh, DB.empty, KV.insert, KV.empty, Block.hash,
      eq_self_iff_true, ite_true, Option.isSome]

/-- Witness for C1 at a concrete genesis block with two transactions. -/
theorem C1_witness :
    ∃ s, BlockDataManager.new testGenesis 77 testConfig 10 DB.empty
        = some s ∧
      (block_by_hash s testGenesis.hash true).1 = some testGenesis ∧
      (∀ i tx, testGenesis.transactions[i]? = some tx →
        (transaction_index_by_hash s tx.hash true).1
          = some { block_hash := testGenesis.hash, index := i }) ∧
      (get_epoch_execution_context s testGenesis.hash).1
        = some { start_block_number := 0 } ∧
      epoch_executed s testGenesis.hash = true :=
  C1_era_genesis_seeding testGenesis 77 testConfig 10 true true
    (by decide)

/-- A concrete durable store with epoch sets and one block body, for
exercising `gc_epoch`. -/
def testDbGC : DB :=
  { DB.empty with
    skipped_epoch_sets :=
      (fun n => if n = 3 then some [] else if n = 1 then some []
                else none),
    executed_epoch_sets :=
      (fun n => if n = 3 then some [31] else if n = 1 then some [11]
                else none),
    block_bodies :=
      (fun h => if h = 31 then some [{ hash := 301 }] else none) }

/-- A concrete manager state over `testDbGC` (retention depths: tx-index
`3`, others `5`). -/
def testStateGC : BDMState :=
  BDMState.fresh testGenesis testConfig 10 testDbGC

/-- Witness for C8 at a concrete state: `gc_epoch(6)` deletes the
tx-index of epoch `3` before the body of epoch `1`, and the ordering
theorem applies at positions `0` and `1` of the trace. -/
theorem C8_witness :
    gc_epoch_trace testStateGC 6
      = [GCEvent.removeTxIndex 301, GCEvent.removeBody 11,
         GCEvent.removeExecResult 11, GCEvent.removeReward 11,
         GCEvent.removeTrace 11] ∧ (0 : Nat) < 1 :=
  ⟨by decide,
   C8_gc_tx_index_before_bodies testStateGC 6 3 5 rfl rfl (by decide)
     (by decide) 0 1 (by decide) (by decide) (by decide) (by decide)⟩

end BDM
